import Mathlib

/-!
# Watcher SDK error-processing pipeline: a shallow embedding

This file embeds the core of the Watcher error-telemetry pipeline
(`src/core/processor.ts`, `src/utils/hash.ts`, `src/utils/sanitize.ts`)
in Lean 4 and proves the stated properties of its specification.

JavaScript strings are modelled as lists of UTF-16 code-unit characters
(`JsStr := List Char`); JavaScript 32-bit integer arithmetic (`Math.imul`,
`^`, `>>> 0`) is modelled over `Int`/`Nat` with explicit reduction
modulo `2 ^ 32`.
-/

/-- JavaScript string, as its list of characters. -/
abbrev JsStr := List Char

/-! ## Hasher (`src/utils/hash.ts`) -/

/-- JavaScript `ToUint32`: the unsigned 32-bit value of an integer. -/
def toUint32 (i : Int) : Nat := (i % (2 ^ 32 : Nat)).toNat

/-- JavaScript `ToInt32`: the signed 32-bit value of an integer. -/
def toInt32 (i : Int) : Int :=
  if i % (2 ^ 32 : Nat) < 2 ^ 31 then i % (2 ^ 32 : Nat) else i % (2 ^ 32 : Nat) - 2 ^ 32

/-- JavaScript `Math.imul`: signed 32-bit multiplication. -/
def imul (a b : Int) : Int := toInt32 (toInt32 a * toInt32 b)

/-- JavaScript `^` (bitwise XOR): both operands coerced to int32. -/
def jsXor (a b : Int) : Int := toInt32 (Int.ofNat (Nat.xor (toUint32 a) (toUint32 b)))

/-- JavaScript `Number.prototype.toString(16)` for an unsigned integer:
minimal-width lowercase hexadecimal digits. -/
def natToHex (n : Nat) : JsStr := Nat.toDigits 16 n

/-- The FNV-1a accumulator loop of `simpleHash`, one step per character:
`hash ^= input.charCodeAt(i); hash = Math.imul(hash, 0x01000193)`. -/
def fnvStep (h : Int) (c : Char) : Int := imul (jsXor h (Int.ofNat c.toNat)) 0x01000193

/-- `simpleHash` from `src/utils/hash.ts`: 32-bit FNV-1a over the characters,
starting from `0x811c9dc5 >>> 0`, formatted via `(hash >>> 0).toString(16)`. -/
def simpleHash (input : JsStr) : JsStr :=
  natToHex (toUint32 (input.foldl fnvStep (Int.ofNat 0x811c9dc5)))

/-- Modelled from the spec: the FNV-1a recurrence as §4.1 describes it —
`h = (h XOR charCode)`, then `h = h * prime mod 2^32`, over naturals,
starting from the offset basis. -/
def fnvSpecAcc (input : JsStr) : Nat :=
  input.foldl (fun h c => (Nat.xor h c.toNat) * 0x01000193 % 2 ^ 32) 0x811c9dc5

theorem toUint32_cast (i : Int) : (toUint32 i : Int) = i % (2 ^ 32 : Nat) := by
  unfold toUint32
  exact Int.toNat_of_nonneg (Int.emod_nonneg i (by norm_num))

theorem toUint32_lt (i : Int) : toUint32 i < 2 ^ 32 := by
  have h := Int.emod_lt_of_pos i (b := (2 ^ 32 : Nat)) (by norm_num)
  have h0 := Int.emod_nonneg i (b := (2 ^ 32 : Nat)) (by norm_num)
  unfold toUint32
  omega

theorem toInt32_emod (i : Int) : toInt32 i % (2 ^ 32 : Nat) = i % (2 ^ 32 : Nat) := by
  unfold toInt32
  have h := Int.emod_lt_of_pos i (b := (2 ^ 32 : Nat)) (by norm_num)
  have h0 := Int.emod_nonneg i (b := (2 ^ 32 : Nat)) (by norm_num)
  split <;> omega

theorem toUint32_toInt32 (i : Int) : toUint32 (toInt32 i) = toUint32 i := by
  have := toInt32_emod i
  unfold toUint32
  rw [this]

theorem toUint32_ofNat (n : Nat) (h : n < 2 ^ 32) : toUint32 (Int.ofNat n) = n := by
  unfold toUint32
  rw [Int.ofNat_eq_natCast]
  rw [Int.emod_eq_of_lt (by omega) (by exact_mod_cast h)]
  exact Int.toNat_natCast n

theorem toUint32_imul (a b : Int) :
    toUint32 (imul a b) = toUint32 a * toUint32 b % 2 ^ 32 := by
  have cast_eq : ((toUint32 a * toUint32 b % 2 ^ 32 : Nat) : Int)
      = (a * b) % (2 ^ 32 : Nat) := by
    push_cast [toUint32_cast]
    rw [← Int.mul_emod]
  have : (toUint32 (imul a b) : Int) = ((toUint32 a * toUint32 b % 2 ^ 32 : Nat) : Int) := by
    rw [cast_eq, toUint32_cast]
    unfold imul
    rw [toInt32_emod, Int.mul_emod, toInt32_emod, toInt32_emod, ← Int.mul_emod]
  exact_mod_cast this

theorem toUint32_jsXor (a b : Int) :
    toUint32 (jsXor a b) = Nat.xor (toUint32 a) (toUint32 b) := by
  unfold jsXor
  rw [toUint32_toInt32]
  exact toUint32_ofNat _ (Nat.xor_lt_two_pow (toUint32_lt a) (toUint32_lt b))

theorem char_code_lt (c : Char) : c.toNat < 2 ^ 32 := by
  have h := c.val.toNat_lt
  simpa [Char.toNat, UInt32.size] using h

theorem toUint32_fnvStep (h : Int) (c : Char) :
    toUint32 (fnvStep h c) = Nat.xor (toUint32 h) c.toNat * 0x01000193 % 2 ^ 32 := by
  have hp : toUint32 (0x01000193 : Int) = 0x01000193 := rfl
  unfold fnvStep
  rw [toUint32_imul, toUint32_jsXor, toUint32_ofNat c.toNat (char_code_lt c), hp]

theorem foldl_fnvStep (l : JsStr) (h : Int) :
    toUint32 (l.foldl fnvStep h)
      = l.foldl (fun a c => Nat.xor a c.toNat * 0x01000193 % 2 ^ 32) (toUint32 h) := by
  induction l generalizing h with
  | nil => rfl
  | cons c t ih => simp only [List.foldl_cons, ih, toUint32_fnvStep]

/-! ## JavaScript string helpers -/

/-- JavaScript regex `\s` (the whitespace class used by `trim`,
`replace(/\s+/g, ...)`). -/
def isJsWs (c : Char) : Bool :=
  c == ' ' || c == '\t' || c == '\n' || c == '\r' ||
  c.toNat == 0x0b || c.toNat == 0x0c || c.toNat == 0xa0 || c.toNat == 0x1680 ||
  (0x2000 ≤ c.toNat && c.toNat ≤ 0x200a) || c.toNat == 0x2028 || c.toNat == 0x2029 ||
  c.toNat == 0x202f || c.toNat == 0x205f || c.toNat == 0x3000 || c.toNat == 0xfeff

/-- JavaScript `s.replace(/\s+/g, '')`: every whitespace character removed. -/
def removeWs (l : JsStr) : JsStr := l.filter (fun c => !isJsWs c)

/-- JavaScript `String.prototype.trim`. -/
def jsTrim (l : JsStr) : JsStr := ((l.dropWhile isJsWs).reverse.dropWhile isJsWs).reverse

/-- JavaScript `String.prototype.toLowerCase`, on the ASCII range (the only
case-carrying characters exercised by the sensitive-key list). -/
def lowerStr (l : JsStr) : JsStr := l.map Char.toLower

/-- JavaScript `hay.includes(needle)`: substring containment. -/
def containsSub (needle : JsStr) : JsStr → Bool
  | [] => needle.isEmpty
  | c :: t => needle.isPrefixOf (c :: t) || containsSub needle t

/-! ## Sanitizer (`src/utils/sanitize.ts`) -/

/-- `SENSITIVE_KEYS` from `src/utils/sanitize.ts`. -/
def SENSITIVE_KEYS : List JsStr :=
  ["token".toList, "auth".toList, "authorization".toList, "password".toList,
   "passwd".toList, "secret".toList, "api_key".toList, "apikey".toList,
   "access_key".toList, "session".toList, "cookie".toList]

/-- `isSensitive` from `src/utils/sanitize.ts`: the lowercased key contains
some sensitive key as a substring. -/
def isSensitive (key : JsStr) : Bool :=
  SENSITIVE_KEYS.any (fun sk => containsSub sk (lowerStr key))

/-- The `'…[truncated]'` marker appended by `truncate`. -/
def truncationMarker : JsStr := "…[truncated]".toList

/-- `truncate` from `src/utils/sanitize.ts` on a string that is present:
`s.length > max ? s.slice(0, max) + '…[truncated]' : s`. -/
def truncate (s : JsStr) (max : Nat) : JsStr :=
  if max < s.length then s.take max ++ truncationMarker else s

/-- `truncate` on an optional field: a non-string (absent) input is returned
unchanged (`if (typeof s !== 'string') return s`). -/
def truncateOpt (s : Option JsStr) (max : Nat) : Option JsStr :=
  s.map (fun l => truncate l max)

/-- The literal `'REDACTED'`. -/
def redactedStr : JsStr := "REDACTED".toList

/-- WHATWG `URLSearchParams.set(k, v)`: give the first pair named `k` the
value `v` and drop every later pair named `k`; append if `k` is absent. -/
def spSet : List (JsStr × JsStr) → JsStr → JsStr → List (JsStr × JsStr)
  | [], k, v => [(k, v)]
  | (k', v') :: t, k, v =>
    if k' = k then (k, v) :: t.filter (fun kv => decide (kv.1 ≠ k))
    else (k', v') :: spSet t k v

/-- The `for (const [key, value] of u.searchParams.entries())` loop of
`sanitizeUrl`: index-based iteration over the live parameter list, calling
`set(key, 'REDACTED')` on each sensitive entry reached.  The fuel argument
only bounds the iteration count; `sanitizeParams` supplies enough. -/
def spGo : Nat → List (JsStr × JsStr) → Nat → List (JsStr × JsStr)
  | 0, l, _ => l
  | fuel + 1, l, i =>
    match l[i]? with
    | none => l
    | some kv =>
      if isSensitive kv.1 then spGo fuel (spSet l kv.1 redactedStr) (i + 1)
      else spGo fuel l (i + 1)

/-- The net effect of `sanitizeUrl`'s redaction loop on the parameter list. -/
def sanitizeParams (l : List (JsStr × JsStr)) : List (JsStr × JsStr) := spGo l.length l 0

/-- First-occurrence redaction: each sensitive-named parameter keeps its
first occurrence with value `REDACTED` (later pairs of that name are
removed, as `URLSearchParams.set` does); non-sensitive pairs are kept
verbatim.  Proved below to be exactly what `sanitizeParams` computes. -/
def redactList : List (JsStr × JsStr) → List (JsStr × JsStr)
  | [] => []
  | (k, v) :: t =>
    if isSensitive k then (k, redactedStr) :: redactList (t.filter (fun kv => decide (kv.1 ≠ k)))
    else (k, v) :: redactList t
termination_by l => l.length
decreasing_by
  · exact Nat.lt_succ_of_le (t.length_filter_le _)
  · exact Nat.lt_succ_of_le (Nat.le_refl _)

/-- An abstract parsed URL (`new URL(...)` is a platform API, not repository
code): its search-parameter list, and the serialization `u.toString()`
produces once the parameter list is rewritten. -/
structure JsUrl where
  params : List (JsStr × JsStr)
  build : List (JsStr × JsStr) → JsStr

/-- An abstract URL parser: `none` models `new URL(url, base)` throwing. -/
abbrev UrlParser := JsStr → Option JsUrl

/-- `sanitizeUrl` from `src/utils/sanitize.ts`, over an abstract parser:
empty string is falsy (`if (!url) return;`), a parse failure is caught and
the original string returned, and otherwise every sensitive search
parameter is `set` to `REDACTED` and the URL re-serialized. -/
def sanitizeUrl (P : UrlParser) (url : JsStr) : Option JsStr :=
  if url.isEmpty then none
  else
    match P url with
    | some u => some (u.build (sanitizeParams u.params))
    | none => some url

/-! ## Data model (`src/types/types.ts`) -/

/-- `ErrorKind` from `src/types/types.ts`. -/
inductive ErrorKind
  | runtime_error
  | unhandled_promise
  | render_error
  | network_error
deriving DecidableEq

/-- `WatcherEnv` from `src/types/types.ts`. -/
inductive WatcherEnv
  | development
  | production
  | test
  | staging
deriving DecidableEq

/-- The string value an `ErrorKind` has at runtime. -/
def kindStr : ErrorKind → JsStr
  | .runtime_error => "runtime_error".toList
  | .unhandled_promise => "unhandled_promise".toList
  | .render_error => "render_error".toList
  | .network_error => "network_error".toList

/-- `ErrorPayload` from `src/types/types.ts`. -/
structure ErrorPayload where
  type : ErrorKind
  name : Option JsStr
  message : Option JsStr
  stack : Option JsStr
  source : Option JsStr
  position : Option JsStr
  url : Option JsStr
  route : Option JsStr
  userAgent : Option JsStr
  timestamp : JsStr
  environment : Option WatcherEnv
  sessionId : Option JsStr
deriving DecidableEq

/-- `WatcherConfig` from `src/types/types.ts`; every field optional because
`getConfig` may hand out `{} as WatcherConfig`. -/
structure WatcherConfig where
  environment : Option WatcherEnv
  sampleRate : Option ℚ
  maxBreadcrumbs : Option Nat
deriving DecidableEq

/-- `getConfig` from `src/core/config.ts`: the stored configuration, or the
empty object when none was set. -/
def getConfigM (slot : Option WatcherConfig) : WatcherConfig :=
  slot.getD ⟨none, none, none⟩

/-- `sanitizePayload` from `src/utils/sanitize.ts`. -/
def sanitizePayload (P : UrlParser) (p : ErrorPayload) : ErrorPayload :=
  { p with
    url := sanitizeUrl P (p.url.getD [])
    message := truncateOpt p.message 2000
    stack := truncateOpt p.stack 50000
    source := truncateOpt p.source 2000 }

/-! ## Processor (`src/core/processor.ts`) -/

/-- `fingerprint` from `src/core/processor.ts`: normalize the five identity
fields and hash their `'|'`-join.  Missing fields fall back to `''`
(`p?.name || ''` and friends). -/
def fingerprint (p : ErrorPayload) : JsStr :=
  let name := jsTrim (p.name.getD [])
  let msg := jsTrim (removeWs (p.message.getD []))
  let stack := jsTrim (removeWs (p.stack.getD []))
  let src := jsTrim (p.source.getD [])
  simpleHash (List.intercalate ("|".toList) [kindStr p.type, name, msg, stack, src])

/-- JavaScript `Map.prototype.get` on the `recent` store (insertion-ordered
association list). -/
def mapGet : List (JsStr × Nat) → JsStr → Option Nat
  | [], _ => none
  | (k', v) :: t, k => if k' = k then some v else mapGet t k

/-- JavaScript `Map.prototype.set`: overwrite in place, else append. -/
def mapSet : List (JsStr × Nat) → JsStr → Nat → List (JsStr × Nat)
  | [], k, v => [(k, v)]
  | (k', v') :: t, k, v => if k' = k then (k, v) :: t else (k', v') :: mapSet t k v

/-- `deduped` from `src/core/processor.ts`, with `Date.now()` passed in as
`now` and the module-level `recent` map passed and returned explicitly.
The guard `expiry && expiry > now` tests JavaScript truthiness of `expiry`
(`e ≠ 0`) before the comparison. -/
def deduped (key : JsStr) (ttl : Nat) (now : Nat) (recent : List (JsStr × Nat)) :
    Bool × List (JsStr × Nat) :=
  let expiry := mapGet recent key
  let recent1 :=
    if 500 < recent.length then recent.filter (fun kv => decide (¬ kv.2 ≤ now)) else recent
  match expiry with
  | some e =>
    if e ≠ 0 ∧ now < e then (true, recent1)
    else (false, mapSet recent1 key (now + ttl))
  | none => (false, mapSet recent1 key (now + ttl))

/-- `RATE_WINDOW_MS` from `src/core/processor.ts`. -/
def RATE_WINDOW_MS : Nat := 5000

/-- `RATE_MAX` from `src/core/processor.ts`. -/
def RATE_MAX : Nat := 50

/-- `rateLimited` from `src/core/processor.ts`, with `Date.now()` passed in
and the module-level `windowStart`/`countInWindow` state explicit.  Result:
(return value, new `windowStart`, new `countInWindow`).  `Date.now()` never
decreases below `windowStart` in any real trace, and for `now < ws` the
truncated `Nat` subtraction and JavaScript's negative difference both fail
the `> RATE_WINDOW_MS` test, so `Nat` subtraction is faithful. -/
def rateLimited (now ws cnt : Nat) : Bool × Nat × Nat :=
  let ws' := if RATE_WINDOW_MS < now - ws then now else ws
  let cnt0 := if RATE_WINDOW_MS < now - ws then 0 else cnt
  let cnt' := cnt0 + 1
  (RATE_MAX < cnt', ws', cnt')

/-- `shouldSample` from `src/core/processor.ts`: the `Math.random()` draw is
passed in as `rand`; `cfg?.sampleRate ?? 1` defaults the rate. -/
def shouldSample (cfg : WatcherConfig) (rand : ℚ) : Bool :=
  decide (rand < cfg.sampleRate.getD 1)

/-- The module-level mutable state of `src/core/processor.ts`. -/
structure ProcState where
  windowStart : Nat
  countInWindow : Nat
  recent : List (JsStr × Nat)
deriving DecidableEq

/-- The object `{ ...sanitized, fingerprint: key }` handed to the sink. -/
structure SentPayload where
  payload : ErrorPayload
  fingerprint : JsStr
deriving DecidableEq

/-- `processError` from `src/core/processor.ts` as a state transformer.
Ambient effects become parameters: `P` the URL parser, `cfgSlot` the config
singleton, `rand` the `Math.random()` draw, `now1`/`now2` the `Date.now()`
readings inside `rateLimited` and `deduped`.  The returned `Option
SentPayload` is the payload dispatched to the sink in step 8 (`none` when
the payload is dropped). -/
def processError (P : UrlParser) (cfgSlot : Option WatcherConfig) (rand : ℚ)
    (now1 now2 : Nat) (raw : ErrorPayload) (st : ProcState) :
    ProcState × Option SentPayload :=
  let config := getConfigM cfgSlot
  if !shouldSample config rand then (st, none)
  else
    let r := rateLimited now1 st.windowStart st.countInWindow
    let st1 : ProcState := { st with windowStart := r.2.1, countInWindow := r.2.2 }
    if r.1 then (st1, none)
    else
      let sanitized := sanitizePayload P raw
      let key := fingerprint sanitized
      let d := deduped key 3000 now2 st1.recent
      let st2 : ProcState := { st1 with recent := d.2 }
      if d.1 then (st2, none)
      else (st2, some ⟨sanitized, key⟩)

/-- The `try` body of `processError` with every pipeline stage allowed to
throw (`Except`): configuration read, sampling, rate limiting,
sanitization, fingerprinting, deduplication. -/
def processErrorBody {E Cfg Pay Key : Type} (getCfg : Except E Cfg)
    (sample : Cfg → Except E Bool) (rateL : Except E Bool)
    (sanitize : Pay → Except E Pay) (fp : Pay → Except E Key)
    (dedup : Key → Except E Bool) (raw : Pay) : Except E (Option (Pay × Key)) := do
  let cfg ← getCfg
  let admitted ← sample cfg
  if !admitted then return none
  let limited ← rateL
  if limited then return none
  let clean ← sanitize raw
  let key ← fp clean
  let dup ← dedup key
  if dup then return none
  return some (clean, key)

/-- `processError`'s `try { ... } catch { }` shell: any exception escaping
the body is swallowed and nothing is dispatched. -/
def processErrorE {E Cfg Pay Key : Type} (getCfg : Except E Cfg)
    (sample : Cfg → Except E Bool) (rateL : Except E Bool)
    (sanitize : Pay → Except E Pay) (fp : Pay → Except E Key)
    (dedup : Key → Except E Bool) (raw : Pay) : Except E (Option (Pay × Key)) :=
  match processErrorBody getCfg sample rateL sanitize fp dedup raw with
  | .ok r => .ok r
  | .error _ => .ok none

/-! ## Supporting lemmas -/

theorem dropWhile_eq_self_of_none (p : Char → Bool) (l : JsStr)
    (h : ∀ c ∈ l, p c = false) : l.dropWhile p = l := by
  cases l with
  | nil => rfl
  | cons c t => simp [List.dropWhile_cons, h c (List.mem_cons_self c t)]

theorem jsTrim_of_noWs (l : JsStr) (h : ∀ c ∈ l, isJsWs c = false) : jsTrim l = l := by
  unfold jsTrim
  rw [dropWhile_eq_self_of_none _ _ h,
    dropWhile_eq_self_of_none _ _ (fun c hc => h c (List.mem_reverse.mp hc)),
    List.reverse_reverse]

theorem jsTrim_removeWs (l : JsStr) : jsTrim (removeWs l) = removeWs l := by
  refine jsTrim_of_noWs _ (fun c hc => ?_)
  have := List.of_mem_filter hc
  simpa using this

/-- C9 counterexample: `simpleHash` output is not fixed-width — the hash of
`"akd"` is the seven-digit `"d368b73"` while the hash of `""` has eight
digits, because `toString(16)` does not pad. -/
theorem simpleHash_not_fixed_width :
    simpleHash ("akd".toList) = "d368b73".toList ∧
    (simpleHash ("akd".toList)).length = 7 ∧
    (simpleHash ([] : JsStr)).length = 8 := by
  decide

/-- C9 (amended): `hash(s)` is the 32-bit FNV-1a value of `s` — accumulator
starting at offset basis `0x811c9dc5`, each character XORed in and then
multiplied by prime `0x01000193` modulo `2^32` — formatted as lowercase
hexadecimal of minimal width (no leading-zero padding, so not fixed-width);
`hash("")` is the offset basis in hex, and `hash` is total and
deterministic. -/
theorem simpleHash_is_fnv1a (s : JsStr) :
    simpleHash s = natToHex (fnvSpecAcc s) ∧ simpleHash [] = "811c9dc5".toList := by
  constructor
  · unfold simpleHash fnvSpecAcc
    rw [foldl_fnvStep]
    rfl
  · decide

/-- C7: `truncate` leaves a string of length at most the cap unchanged,
replaces a longer string by its first `cap` characters plus the marker, and
is idempotent; `sanitizePayload` applies it per field with caps 2000
(message), 50000 (stack), 2000 (source), passing absent fields through
unchanged. -/
theorem truncate_spec (s : JsStr) (cap : Nat) :
    (s.length ≤ cap → truncate s cap = s) ∧
    (cap < s.length → truncate s cap = s.take cap ++ truncationMarker) ∧
    truncate (truncate s cap) cap = truncate s cap ∧
    (∀ (P : UrlParser) (p : ErrorPayload),
      (sanitizePayload P p).message = truncateOpt p.message 2000 ∧
      (sanitizePayload P p).stack = truncateOpt p.stack 50000 ∧
      (sanitizePayload P p).source = truncateOpt p.source 2000) ∧
    truncateOpt none cap = none ∧
    (∀ l : JsStr, truncateOpt (some l) cap = some (truncate l cap)) := by
  refine ⟨fun h => ?_, fun h => ?_, ?_, fun P p => ⟨rfl, rfl, rfl⟩, rfl, fun l => rfl⟩
  · simp [truncate, Nat.not_lt.mpr h]
  · simp [truncate, h]
  · by_cases h : cap < s.length
    · have hlen : (s.take cap ++ truncationMarker).length = cap + 12 := by
        simp [List.length_take, Nat.min_eq_left (Nat.le_of_lt h)]
        rfl
      have hgt : cap < (s.take cap ++ truncationMarker).length := by omega
      have htake : (s.take cap ++ truncationMarker).take cap = s.take cap := by
        rw [List.take_append_eq_append_take, List.take_take, Nat.min_self,
          List.length_take, Nat.min_eq_left (Nat.le_of_lt h), Nat.sub_self,
          List.take_zero, List.append_nil]
      simp only [truncate, if_pos h, if_pos hgt, htake]
    · simp [truncate, h]

/-- C8: the fingerprint is the hash of the five fields `[kind, trimmed name,
whitespace-stripped message, whitespace-stripped stack, trimmed source]`
joined by `'|'` (missing fields as empty strings); consequently payloads
identical up to whitespace inside message or stack get equal
fingerprints. -/
theorem fingerprint_normalizes (p : ErrorPayload) :
    fingerprint p = simpleHash (List.intercalate ("|".toList)
      [kindStr p.type, jsTrim (p.name.getD []), removeWs (p.message.getD []),
       removeWs (p.stack.getD []), jsTrim (p.source.getD [])]) ∧
    ∀ p' : ErrorPayload, p.type = p'.type → p.name = p'.name → p.source = p'.source →
      removeWs (p.message.getD []) = removeWs (p'.message.getD []) →
      removeWs (p.stack.getD []) = removeWs (p'.stack.getD []) →
      fingerprint p = fingerprint p' := by
  constructor
  · unfold fingerprint
    rw [jsTrim_removeWs, jsTrim_removeWs]
  · intro p' h1 h2 h3 h4 h5
    unfold fingerprint
    rw [h1, h2, h3, h4, h5]

/-- C7 witness: concrete truncation behavior at cap 5. -/
theorem truncate_spec_witness :
    ("Hello".toList : JsStr).length ≤ 5 ∧ truncate ("Hello".toList) 5 = "Hello".toList ∧
    5 < ("Hello World".toList : JsStr).length ∧
    truncate ("Hello World".toList) 5 = ("Hello World".toList).take 5 ++ truncationMarker :=
  ⟨by decide, (truncate_spec ("Hello".toList) 5).1 (by decide), by decide,
   (truncate_spec ("Hello World".toList) 5).2.1 (by decide)⟩

/-- Concrete payload for the C8 witness: an indented two-line stack. -/
def wsPayloadA : ErrorPayload :=
  ⟨.runtime_error, some ("TypeError".toList), some ("Cannot read x".toList),
   some ("Error: x\n    at foo".toList), none, none, none, none, none,
   "t1".toList, none, none⟩

/-- Concrete payload for the C8 witness: same error, different indentation. -/
def wsPayloadB : ErrorPayload :=
  ⟨.runtime_error, some ("TypeError".toList), some ("Cannot  read x".toList),
   some ("Error: x\n  at foo".toList), none, none, none, none, none,
   "t1".toList, none, none⟩

/-- C8 witness: the two payloads differing only in whitespace runs inside
message and stack hash to the same fingerprint. -/
theorem fingerprint_normalizes_witness : fingerprint wsPayloadA = fingerprint wsPayloadB :=
  (fingerprint_normalizes wsPayloadA).2 wsPayloadB rfl rfl rfl (by decide) (by decide)

/-- A sequence of `rateLimited` calls at the given `Date.now()` readings,
threading the window state; returns the call results and the final state. -/
def rlRun : List Nat → Nat → Nat → List Bool × Nat × Nat
  | [], ws, cnt => ([], ws, cnt)
  | t :: ts, ws, cnt =>
    let r := rateLimited t ws cnt
    let rest := rlRun ts r.2.1 r.2.2
    (r.1 :: rest.1, rest.2)

theorem rateLimited_in_window (t ws cnt : Nat) (h : t ≤ ws + RATE_WINDOW_MS) :
    rateLimited t ws cnt = (decide (RATE_MAX < cnt + 1), ws, cnt + 1) := by
  have hc : ¬ RATE_WINDOW_MS < t - ws := by unfold RATE_WINDOW_MS at *; omega
  simp [rateLimited, hc]

theorem rlRun_in_window (ts : List Nat) (t0 : Nat) :
    ∀ c : Nat, (∀ t ∈ ts, t ≤ t0 + RATE_WINDOW_MS) →
    rlRun ts t0 c
      = ((List.range ts.length).map (fun i => decide (RATE_MAX < c + (i + 1))), t0,
         c + ts.length) := by
  induction ts with
  | nil => intro c _; rfl
  | cons t ts ih =>
    intro c h
    have ht : t ≤ t0 + RATE_WINDOW_MS := h t (List.mem_cons_self t ts)
    have hrec := ih (c + 1) (fun u hu => h u (List.mem_cons_of_mem t hu))
    simp only [rlRun, rateLimited_in_window t t0 c ht, hrec]
    refine Prod.ext ?_ (Prod.ext rfl (by simp; omega))
    simp only [List.length_cons, List.range_succ_eq_map, List.map_cons, List.map_map]
    refine List.cons_eq_cons.mpr ⟨decide_eq_decide.mpr (by omega), ?_⟩
    refine List.map_congr_left (fun i _ => ?_)
    simp only [Function.comp]
    exact decide_eq_decide.mpr (by omega)

/-- C3: from a fresh window (`windowStart = t0`, count 0), 51 calls whose
`Date.now()` readings stay within the window length return `false` fifty
times and then `true`; and any call more than `RATE_WINDOW_MS` after
`windowStart` resets the window (`windowStart := now`, count restarts at
this call) and returns `false`. -/
theorem rate_limit_boundary (t0 : Nat) (ts : List Nat) (hlen : ts.length = 51)
    (hin : ∀ t ∈ ts, t ≤ t0 + RATE_WINDOW_MS) :
    (rlRun ts t0 0).1 = List.replicate 50 false ++ [true] ∧
    ∀ ws cnt t, ws + RATE_WINDOW_MS < t → rateLimited t ws cnt = (false, t, 1) := by
  constructor
  · rw [rlRun_in_window ts t0 0 hin, hlen]
    show List.map (fun i => decide (RATE_MAX < 0 + (i + 1))) (List.range 51)
      = List.replicate 50 false ++ [true]
    decide
  · intro ws cnt t h
    have hc : RATE_WINDOW_MS < t - ws := by unfold RATE_WINDOW_MS at *; omega
    simp [rateLimited, hc]
    decide

/-- C3 witness: 51 calls at time 0 from a fresh window starting at 0, and a
reset call at time 5001. -/
theorem rate_limit_boundary_witness :
    (rlRun (List.replicate 51 0) 0 0).1 = List.replicate 50 false ++ [true] ∧
    rateLimited 5001 0 7 = (false, 5001, 1) := by
  have h := rate_limit_boundary 0 (List.replicate 51 0) (by decide)
    (fun t ht => by simp at ht; simp [ht])
  exact ⟨h.1, h.2 0 7 5001 (by decide)⟩

theorem mapGet_mapSet_self (l : List (JsStr × Nat)) (k : JsStr) (v : Nat) :
    mapGet (mapSet l k v) k = some v := by
  induction l with
  | nil => simp [mapSet, mapGet]
  | cons kv t ih =>
    by_cases h : kv.1 = k
    · simp [mapSet, mapGet, h]
    · simp [mapSet, mapGet, h, ih]

theorem mapGet_mapSet_ne (l : List (JsStr × Nat)) (k k' : JsStr) (v : Nat) (h : k' ≠ k) :
    mapGet (mapSet l k v) k' = mapGet l k' := by
  have hne : ¬ (k = k') := fun he => h he.symm
  induction l with
  | nil => simp [mapSet, mapGet, hne]
  | cons kv t ih =>
    obtain ⟨a, b⟩ := kv
    by_cases hk : a = k
    · subst hk
      simp [mapSet, mapGet, hne]
    · simp [mapSet, mapGet, hk, ih]

theorem mapGet_filter (l : List (JsStr × Nat)) (p : JsStr × Nat → Bool) (k : JsStr) (v : Nat)
    (hget : mapGet l k = some v) (hp : p (k, v) = true) :
    mapGet (l.filter p) k = some v := by
  induction l with
  | nil => simp [mapGet] at hget
  | cons kv t ih =>
    by_cases hk : kv.1 = k
    · have hv : kv.2 = v := by
        simp [mapGet, hk] at hget
        exact hget
      have : kv = (k, v) := Prod.ext hk hv
      subst this
      simp [List.filter_cons, hp, mapGet]
    · simp only [mapGet, hk, if_neg hk] at hget
      rcases hpk : p kv with _ | _
      · simp [List.filter_cons, hpk, ih hget]
      · simp [List.filter_cons, hpk, mapGet, hk, ih hget]

/-- The map on which the duplicate test and the entry write run: swept when
over the size trigger, untouched otherwise. -/
theorem deduped_recent1 (key : JsStr) (ttl now : Nat) (recent : List (JsStr × Nat)) :
    (deduped key ttl now recent).2
      = (let recent1 := if 500 < recent.length
            then recent.filter (fun kv => decide (¬ kv.2 ≤ now)) else recent;
         if (deduped key ttl now recent).1 then recent1
         else mapSet recent1 key (now + ttl)) := by
  unfold deduped
  cases h : mapGet recent key with
  | none => simp
  | some e =>
    by_cases hg : e ≠ 0 ∧ now < e
    · simp [hg]
    · simp [hg]

/-- C4: a duplicate test against a stored entry whose expiry is strictly in
the future returns `true` and leaves the entry's expiry unchanged; with no
entry, or a stored expiry that has passed, it writes `expiry = now + ttl`
and returns `false`. -/
theorem dedup_ttl (key : JsStr) (ttl now : Nat) (recent : List (JsStr × Nat)) :
    (∀ e, mapGet recent key = some e → now < e →
      (deduped key ttl now recent).1 = true ∧
      mapGet (deduped key ttl now recent).2 key = some e) ∧
    ((mapGet recent key = none ∨ ∃ e, mapGet recent key = some e ∧ e ≤ now) →
      (deduped key ttl now recent).1 = false ∧
      mapGet (deduped key ttl now recent).2 key = some (now + ttl)) := by
  constructor
  · intro e hget hlt
    have hg : e ≠ 0 ∧ now < e := ⟨by omega, hlt⟩
    have h1 : (deduped key ttl now recent).1 = true := by
      unfold deduped
      simp [hget, hg]
    refine ⟨h1, ?_⟩
    rw [deduped_recent1, h1]
    simp only [if_true]
    by_cases hsz : 500 < recent.length
    · simp only [hsz, if_pos hsz]
      exact mapGet_filter recent _ key e hget (by simp; omega)
    · simp [hsz, hget]
  · intro hcase
    have h1 : (deduped key ttl now recent).1 = false := by
      unfold deduped
      rcases hcase with hnone | ⟨e, hget, hle⟩
      · simp [hnone]
      · have : ¬ (e ≠ 0 ∧ now < e) := by omega
        simp [hget, this]
    refine ⟨h1, ?_⟩
    rw [deduped_recent1, h1]
    simp only [Bool.false_eq_true, if_false]
    exact mapGet_mapSet_self _ key (now + ttl)

/-- C4 witness: a live entry at expiry 10 seen at time 5 is a duplicate and
keeps expiry 10; an expired entry at 10 seen at time 12 is re-armed to
`12 + 3000` and is not a duplicate. -/
theorem dedup_ttl_witness :
    (deduped ("f".toList) 3000 5 [("f".toList, 10)]).1 = true ∧
    mapGet (deduped ("f".toList) 3000 5 [("f".toList, 10)]).2 ("f".toList) = some 10 ∧
    (deduped ("f".toList) 3000 12 [("f".toList, 10)]).1 = false ∧
    mapGet (deduped ("f".toList) 3000 12 [("f".toList, 10)]).2 ("f".toList) = some 3012 := by
  have ha := (dedup_ttl ("f".toList) 3000 5 [("f".toList, 10)]).1 10 (by decide) (by decide)
  have hb := (dedup_ttl ("f".toList) 3000 12 [("f".toList, 10)]).2
    (Or.inr ⟨10, by decide, by decide⟩)
  exact ⟨ha.1, ha.2, hb.1, hb.2⟩

/-- C5: the sweep runs only when the store holds more than 500 entries; when
it runs it removes exactly the entries whose expiry has passed (the
survivors are the entries with `now < expiry`); and no live entry — one
whose stored expiry is strictly in the future — is removed (or even
changed) by any `deduped` call. -/
theorem dedup_sweep (key : JsStr) (ttl now : Nat) (recent : List (JsStr × Nat)) :
    (recent.length ≤ 500 →
      (deduped key ttl now recent).2 = recent ∨
      (deduped key ttl now recent).2 = mapSet recent key (now + ttl)) ∧
    (500 < recent.length →
      (deduped key ttl now recent).2 = recent.filter (fun kv => decide (¬ kv.2 ≤ now)) ∨
      (deduped key ttl now recent).2
        = mapSet (recent.filter (fun kv => decide (¬ kv.2 ≤ now))) key (now + ttl)) ∧
    (∀ k e, mapGet recent k = some e → now < e →
      mapGet (deduped key ttl now recent).2 k = some e) := by
  refine ⟨?_, ?_, ?_⟩
  · intro hsz
    rw [deduped_recent1]
    simp only [Nat.not_lt.mpr hsz, if_neg (by omega : ¬ 500 < recent.length)]
    by_cases hd : (deduped key ttl now recent).1
    · exact Or.inl (by simp [hd])
    · exact Or.inr (by simp [hd])
  · intro hsz
    rw [deduped_recent1]
    simp only [if_pos hsz]
    by_cases hd : (deduped key ttl now recent).1
    · exact Or.inl (by simp [hd])
    · exact Or.inr (by simp [hd])
  · intro k e hget hlt
    have hsurv : ∀ l1, l1 = (if 500 < recent.length
        then recent.filter (fun kv => decide (¬ kv.2 ≤ now)) else recent) →
        mapGet l1 k = some e := by
      intro l1 hl1
      subst hl1
      by_cases hsz : 500 < recent.length
      · simp only [if_pos hsz]
        exact mapGet_filter recent _ k e hget (by simp; omega)
      · simp [hsz, hget]
    by_cases hk : k = key
    · subst hk
      have := (dedup_ttl k ttl now recent).1 e hget hlt
      exact this.2
    · rw [deduped_recent1]
      by_cases hd : (deduped key ttl now recent).1
      · simp only [hd, if_true]
        exact hsurv _ rfl
      · simp only [hd, Bool.false_eq_true, if_false]
        rw [mapGet_mapSet_ne _ key k (now + ttl) hk]
        exact hsurv _ rfl

/-- C5 witness: with at most 500 entries no sweep happens (a dead unrelated
entry survives); and a live entry is untouched by a duplicate-test call. -/
theorem dedup_sweep_witness :
    (deduped ("f".toList) 3000 5 [("g".toList, 2), ("f".toList, 10)]).2
      = mapSet [("g".toList, 2), ("f".toList, 10)] ("f".toList) 3005 ∨
    (deduped ("f".toList) 3000 5 [("g".toList, 2), ("f".toList, 10)]).2
      = [("g".toList, 2), ("f".toList, 10)] ∧
    mapGet (deduped ("g".toList) 3000 5 [("g".toList, 2), ("f".toList, 10)]).2 ("f".toList)
      = some 10 := by
  have h1 := (dedup_sweep ("f".toList) 3000 5 [("g".toList, 2), ("f".toList, 10)]).1
    (by decide)
  have h2 := (dedup_sweep ("g".toList) 3000 5 [("g".toList, 2), ("f".toList, 10)]).2.2
    ("f".toList) 10 (by decide) (by decide)
  rcases h1 with h1 | h1
  · exact Or.inr ⟨h1, h2⟩
  · exact Or.inl h1

theorem getElem?_append_mid (pre t : List (JsStr × JsStr)) (x : JsStr × JsStr) :
    (pre ++ x :: t)[pre.length]? = some x := by
  induction pre with
  | nil => simp
  | cons a p ih => simpa using ih

theorem spSet_append_first (pre t : List (JsStr × JsStr)) (k v w : JsStr)
    (hpre : ∀ kv ∈ pre, kv.1 ≠ k) :
    spSet (pre ++ (k, v) :: t) k w
      = pre ++ (k, w) :: t.filter (fun kv => decide (kv.1 ≠ k)) := by
  induction pre with
  | nil => simp [spSet]
  | cons a p ih =>
    obtain ⟨a1, a2⟩ := a
    have ha : a1 ≠ k := hpre (a1, a2) (List.mem_cons_self _ _)
    have hstep : spSet ((a1, a2) :: (p ++ (k, v) :: t)) k w
        = (a1, a2) :: spSet (p ++ (k, v) :: t) k w := by
      simp only [spSet, List.append_eq]
      rw [if_neg ha]
    simp only [List.cons_append]
    rw [hstep, ih (fun kv hkv => hpre kv (List.mem_cons_of_mem _ hkv))]

theorem spGo_eq_redact (fuel : Nat) :
    ∀ (cur pre : List (JsStr × JsStr)), cur.length ≤ fuel →
    (∀ kv ∈ cur, isSensitive kv.1 = true → ∀ kv' ∈ pre, kv'.1 ≠ kv.1) →
    spGo fuel (pre ++ cur) pre.length = pre ++ redactList cur := by
  induction fuel with
  | zero =>
    intro cur pre hlen _
    have hnil : cur = [] := List.eq_nil_of_length_eq_zero (Nat.le_zero.mp hlen)
    subst hnil
    simp [spGo, redactList]
  | succ fuel ih =>
    intro cur pre hlen hok
    cases cur with
    | nil =>
      simp only [List.append_nil, redactList]
      unfold spGo
      rw [List.getElem?_eq_none (Nat.le_refl _)]
    | cons kv t =>
      obtain ⟨k, v⟩ := kv
      unfold spGo
      rw [getElem?_append_mid]
      simp only []
      by_cases hs : isSensitive k = true
      · rw [if_pos hs]
        rw [spSet_append_first pre t k v redactedStr
          (fun kv' hkv' => hok (k, v) (List.mem_cons_self _ _) hs kv' hkv')]
        have hre : pre ++ (k, redactedStr) :: t.filter (fun kv => decide (kv.1 ≠ k))
            = (pre ++ [(k, redactedStr)]) ++ t.filter (fun kv => decide (kv.1 ≠ k)) := by
          simp
        have hlen1 : pre.length + 1 = (pre ++ [(k, redactedStr)]).length := by simp
        rw [hre, hlen1, ih (t.filter (fun kv => decide (kv.1 ≠ k))) (pre ++ [(k, redactedStr)])
          (le_trans (t.length_filter_le _) (Nat.lt_succ_iff.mp hlen))
          (fun kv hkv hsens kv' hkv' => by
            rcases List.mem_append.mp hkv' with hmem | hmem
            · exact hok kv (List.mem_cons_of_mem _ (List.mem_of_mem_filter hkv)) hsens kv' hmem
            · have hkv'' : kv' = (k, redactedStr) := by simpa using hmem
              subst hkv''
              have := List.of_mem_filter hkv
              simp only [decide_eq_true_eq] at this
              exact fun he => this he.symm)]
        simp [redactList, hs]
      · rw [if_neg hs]
        have hre : pre ++ (k, v) :: t = (pre ++ [(k, v)]) ++ t := by simp
        have hlen1 : pre.length + 1 = (pre ++ [(k, v)]).length := by simp
        rw [hre, hlen1, ih t (pre ++ [(k, v)]) (Nat.lt_succ_iff.mp hlen)
          (fun kv hkv hsens kv' hkv' => by
            rcases List.mem_append.mp hkv' with hmem | hmem
            · exact hok kv (List.mem_cons_of_mem _ hkv) hsens kv' hmem
            · have hkv'' : kv' = (k, v) := by simpa using hmem
              subst hkv''
              exact fun he => hs (by rw [← he] at hsens; exact hsens))]
        simp [redactList, hs]

theorem sanitizeParams_eq_redact (l : List (JsStr × JsStr)) :
    sanitizeParams l = redactList l := by
  have h := spGo_eq_redact l.length l [] (Nat.le_refl _) (by simp)
  simpa [sanitizeParams] using h

theorem redactList_sens_aux (n : Nat) :
    ∀ l : List (JsStr × JsStr), l.length ≤ n →
    ∀ kv ∈ redactList l, isSensitive kv.1 = true → kv.2 = redactedStr := by
  induction n with
  | zero =>
    intro l hlen
    have hnil : l = [] := List.eq_nil_of_length_eq_zero (Nat.le_zero.mp hlen)
    subst hnil
    simp [redactList]
  | succ n ih =>
    intro l hlen kv hkv hsens
    cases l with
    | nil => simp [redactList] at hkv
    | cons a t =>
      obtain ⟨k, v⟩ := a
      by_cases hs : isSensitive k = true
      · rw [redactList, if_pos hs] at hkv
        rcases List.mem_cons.mp hkv with h | h
        · rw [h]
        · exact ih (t.filter _)
            (le_trans (t.length_filter_le _) (Nat.lt_succ_iff.mp hlen)) kv h hsens
      · rw [redactList, if_neg hs] at hkv
        rcases List.mem_cons.mp hkv with h | h
        · subst h
          exact absurd hsens hs
        · exact ih t (Nat.lt_succ_iff.mp hlen) kv h hsens

theorem redactList_nonsens_aux (n : Nat) :
    ∀ l : List (JsStr × JsStr), l.length ≤ n →
    (redactList l).filter (fun kv => !isSensitive kv.1)
      = l.filter (fun kv => !isSensitive kv.1) := by
  induction n with
  | zero =>
    intro l hlen
    have hnil : l = [] := List.eq_nil_of_length_eq_zero (Nat.le_zero.mp hlen)
    subst hnil
    simp [redactList]
  | succ n ih =>
    intro l hlen
    cases l with
    | nil => simp [redactList]
    | cons a t =>
      obtain ⟨k, v⟩ := a
      by_cases hs : isSensitive k = true
      · rw [redactList, if_pos hs]
        have hrec := ih (t.filter (fun kv => decide (kv.1 ≠ k)))
          (le_trans (t.length_filter_le _) (Nat.lt_succ_iff.mp hlen))
        simp only [List.filter_cons, hs, Bool.not_true, Bool.false_eq_true, if_false]
        rw [hrec, List.filter_filter]
        refine List.filter_congr (fun kv _ => ?_)
        by_cases hak : kv.1 = k
        · simp [hak, hs]
        · simp [hak]
      · rw [redactList, if_neg hs]
        have hs' : isSensitive k = false := by simp at hs; exact hs
        simp only [List.filter_cons, hs', Bool.not_false, if_true]
        rw [ih t (Nat.lt_succ_iff.mp hlen)]

theorem redactList_sens (l : List (JsStr × JsStr)) :
    ∀ kv ∈ redactList l, isSensitive kv.1 = true → kv.2 = redactedStr :=
  redactList_sens_aux l.length l (Nat.le_refl _)

theorem redactList_nonsens (l : List (JsStr × JsStr)) :
    (redactList l).filter (fun kv => !isSensitive kv.1)
      = l.filter (fun kv => !isSensitive kv.1) :=
  redactList_nonsens_aux l.length l (Nat.le_refl _)

/-- Serializer of the abstract C6 URLs: rebuilds only the query part. -/
def buildQuery (ps : List (JsStr × JsStr)) : JsStr :=
  List.intercalate ("&".toList) (ps.map (fun kv => kv.1 ++ "=".toList ++ kv.2))

/-- A parser for the C6 counterexample: `"d"` parses to a URL carrying the
duplicate sensitive query `?token=a&token=b`. -/
def urlParserDup : UrlParser :=
  fun s =>
    if s = "d".toList
    then some ⟨[("token".toList, "a".toList), ("token".toList, "b".toList)], buildQuery⟩
    else none

/-- C6 counterexample: on duplicate sensitive parameter names the loop does
not replace each value in place — `URLSearchParams.set` collapses
`token=a&token=b` to the single pair `token=REDACTED`, so the second
sensitive parameter is removed rather than redacted. -/
theorem sanitizeParams_dup_collapse :
    sanitizeUrl urlParserDup ("d".toList) = some ("token=REDACTED".toList) ∧
    sanitizeUrl urlParserDup ("d".toList) ≠ some ("token=REDACTED&token=REDACTED".toList) ∧
    sanitizeParams [("token".toList, "a".toList), ("token".toList, "b".toList)]
      ≠ [("token".toList, redactedStr), ("token".toList, redactedStr)] := by
  decide

/-- C6 (amended): for every url given to the sanitizer — empty string yields
an undefined sanitized url; a parse failure returns the original string
unchanged; on a successful parse the result is the re-serialized URL whose
parameter list is the first-occurrence redaction of the original: every
surviving sensitive-named parameter carries the literal `REDACTED` (later
duplicates of a sensitive name are removed by `set`), and the non-sensitive
parameters are exactly those of the input, in order, values unchanged. -/
theorem sanitizeUrl_spec (P : UrlParser) (url : JsStr) :
    (url = [] → sanitizeUrl P url = none) ∧
    (url ≠ [] → P url = none → sanitizeUrl P url = some url) ∧
    (∀ u : JsUrl, url ≠ [] → P url = some u →
      sanitizeUrl P url = some (u.build (sanitizeParams u.params)) ∧
      sanitizeParams u.params = redactList u.params ∧
      (∀ kv ∈ sanitizeParams u.params, isSensitive kv.1 = true → kv.2 = redactedStr) ∧
      (sanitizeParams u.params).filter (fun kv => !isSensitive kv.1)
        = u.params.filter (fun kv => !isSensitive kv.1)) := by
  refine ⟨fun h => ?_, fun h hp => ?_, fun u h hp => ?_⟩
  · subst h
    rfl
  · have he : url.isEmpty = false := by
      cases url with
      | nil => exact absurd rfl h
      | cons c t => rfl
    simp [sanitizeUrl, he, hp]
  · have he : url.isEmpty = false := by
      cases url with
      | nil => exact absurd rfl h
      | cons c t => rfl
    have hmain : sanitizeUrl P url = some (u.build (sanitizeParams u.params)) := by
      simp [sanitizeUrl, he, hp]
    refine ⟨hmain, sanitizeParams_eq_redact u.params, ?_, ?_⟩
    · rw [sanitizeParams_eq_redact u.params]
      exact redactList_sens u.params
    · rw [sanitizeParams_eq_redact u.params]
      exact redactList_nonsens u.params

/-- The parameter list of the C6 witness URL. -/
def urlParamsW : List (JsStr × JsStr) :=
  [("token".toList, "a".toList), ("id".toList, "1".toList)]

/-- A concrete abstract parser: `"u"` parses to a URL carrying
`?token=a&id=1`; everything else fails to parse. -/
def urlParserW : UrlParser :=
  fun s => if s = "u".toList then some ⟨urlParamsW, buildQuery⟩ else none

/-- C6 witness: empty url gives `none`, an unparsable url is returned
unchanged, and the parsed witness URL re-serializes with `token` redacted
and `id` untouched. -/
theorem sanitizeUrl_spec_witness :
    sanitizeUrl urlParserW [] = none ∧
    sanitizeUrl urlParserW ("z".toList) = some ("z".toList) ∧
    sanitizeUrl urlParserW ("u".toList) = some ("token=REDACTED&id=1".toList) := by
  refine ⟨(sanitizeUrl_spec urlParserW []).1 rfl,
    (sanitizeUrl_spec urlParserW ("z".toList)).2.1 (by decide) rfl, ?_⟩
  have h := ((sanitizeUrl_spec urlParserW ("u".toList)).2.2
    ⟨urlParamsW, buildQuery⟩ (by decide) rfl).1
  rw [h]
  decide

/-- C1: `processError` never throws — whatever any pipeline stage
(configuration read, sampling, rate limiting, sanitization, fingerprinting,
deduplication) raises is caught by the surrounding `try`/`catch` and the
call returns normally. -/
theorem processError_never_throws {E Cfg Pay Key : Type} (getCfg : Except E Cfg)
    (sample : Cfg → Except E Bool) (rateL : Except E Bool)
    (sanitize : Pay → Except E Pay) (fp : Pay → Except E Key)
    (dedup : Key → Except E Bool) (raw : Pay) :
    ∃ r, processErrorE getCfg sample rateL sanitize fp dedup raw = Except.ok r := by
  unfold processErrorE
  cases processErrorBody getCfg sample rateL sanitize fp dedup raw with
  | ok r => exact ⟨r, rfl⟩
  | error e => exact ⟨none, rfl⟩

theorem processError_some_inv (P : UrlParser) (cfgSlot : Option WatcherConfig) (rand : ℚ)
    (now1 now2 : Nat) (raw : ErrorPayload) (st st' : ProcState) (sp : SentPayload)
    (h : processError P cfgSlot rand now1 now2 raw st = (st', some sp)) :
    shouldSample (getConfigM cfgSlot) rand = true ∧
    (rateLimited now1 st.windowStart st.countInWindow).1 = false ∧
    (deduped (fingerprint (sanitizePayload P raw)) 3000 now2 st.recent).1 = false ∧
    st'.recent = (deduped (fingerprint (sanitizePayload P raw)) 3000 now2 st.recent).2 ∧
    sp = ⟨sanitizePayload P raw, fingerprint (sanitizePayload P raw)⟩ := by
  simp only [processError] at h
  split at h
  · exact absurd h (by simp)
  · split at h
    · exact absurd h (by simp)
    · split at h
      · exact absurd h (by simp)
      · rename_i hsmp hlim hdup
        have h1 : shouldSample (getConfigM cfgSlot) rand = true := by
          simpa using hsmp
        have h2 : (rateLimited now1 st.windowStart st.countInWindow).1 = false := by
          simpa using hlim
        have h3 : (deduped (fingerprint (sanitizePayload P raw)) 3000 now2 st.recent).1
            = false := by
          simpa using hdup
        obtain ⟨hst, hsp⟩ := Prod.mk.injEq .. |>.mp h
        refine ⟨h1, h2, h3, ?_, (Option.some.injEq .. |>.mp hsp).symm⟩
        rw [← hst]

theorem deduped_false_mapGet (key : JsStr) (ttl now : Nat) (recent : List (JsStr × Nat))
    (h : (deduped key ttl now recent).1 = false) :
    mapGet (deduped key ttl now recent).2 key = some (now + ttl) := by
  rw [deduped_recent1, h]
  simp only [Bool.false_eq_true, if_false]
  exact mapGet_mapSet_self _ key (now + ttl)

theorem processError_dup_none (P : UrlParser) (cfgSlot : Option WatcherConfig) (rand : ℚ)
    (now1 now2 : Nat) (raw : ErrorPayload) (st : ProcState)
    (hs : shouldSample (getConfigM cfgSlot) rand = true)
    (hrl : (rateLimited now1 st.windowStart st.countInWindow).1 = false)
    (hdup : (deduped (fingerprint (sanitizePayload P raw)) 3000 now2 st.recent).1 = true) :
    (processError P cfgSlot rand now1 now2 raw st).2 = none := by
  simp [processError, hs, hrl, hdup]

/-- C2: a payload is dispatched to the sink only when the sampler admitted
it, the rate limiter did not limit it, and the deduplicator found it new;
and what is dispatched is exactly the sanitized copy of the input carrying
the computed fingerprint. -/
theorem processError_dispatch (P : UrlParser) (cfgSlot : Option WatcherConfig) (rand : ℚ)
    (now1 now2 : Nat) (raw : ErrorPayload) (st st' : ProcState) (sp : SentPayload)
    (h : processError P cfgSlot rand now1 now2 raw st = (st', some sp)) :
    shouldSample (getConfigM cfgSlot) rand = true ∧
    (rateLimited now1 st.windowStart st.countInWindow).1 = false ∧
    (deduped (fingerprint (sanitizePayload P raw)) 3000 now2 st.recent).1 = false ∧
    sp.payload = sanitizePayload P raw ∧
    sp.fingerprint = fingerprint (sanitizePayload P raw) := by
  have hinv := processError_some_inv P cfgSlot rand now1 now2 raw st st' sp h
  exact ⟨hinv.1, hinv.2.1, hinv.2.2.1, by rw [hinv.2.2.2.2], by rw [hinv.2.2.2.2]⟩

/-- The parser used by the orchestrator witnesses: nothing parses. -/
def urlParserNone : UrlParser := fun _ => none

/-- The fresh module state: `windowStart = 0`, count 0, empty `recent`. -/
def procSt0 : ProcState := ⟨0, 0, []⟩

/-- First orchestrator witness payload. -/
def payloadW1 : ErrorPayload :=
  ⟨.runtime_error, some ("TypeError".toList), some ("Cannot read x".toList), none, none,
   none, none, none, none, "t1".toList, none, none⟩

/-- Second orchestrator witness payload: same five identity fields as
`payloadW1`, different timestamp, url, route, userAgent, position,
environment and sessionId. -/
def payloadW2 : ErrorPayload :=
  ⟨.runtime_error, some ("TypeError".toList), some ("Cannot read x".toList), none, none,
   some ("3:7".toList), some ("https://x/y?id=1".toList), some ("/y".toList),
   some ("UA".toList), "t2".toList, some .production, some ("sess".toList)⟩

set_option maxRecDepth 100000 in
/-- C2 witness: a concrete dispatching run through a fresh state. -/
theorem processError_dispatch_witness :
    shouldSample (getConfigM none) 0 = true ∧
    (rateLimited 0 procSt0.windowStart procSt0.countInWindow).1 = false ∧
    (deduped (fingerprint (sanitizePayload urlParserNone payloadW1)) 3000 0
      procSt0.recent).1 = false ∧
    (⟨payloadW1, "40e8ccf9".toList⟩ : SentPayload).payload
      = sanitizePayload urlParserNone payloadW1 ∧
    (⟨payloadW1, "40e8ccf9".toList⟩ : SentPayload).fingerprint
      = fingerprint (sanitizePayload urlParserNone payloadW1) :=
  processError_dispatch urlParserNone none 0 0 0 payloadW1 procSt0
    ⟨0, 1, [("40e8ccf9".toList, 3000)]⟩ ⟨payloadW1, "40e8ccf9".toList⟩ (by decide)

/-- C10: two payloads agreeing on kind, name, message, stack and source but
differing arbitrarily in url, route, userAgent, timestamp, position,
environment or sessionId get equal fingerprints (before and after
sanitization); hence if the first was dispatched, a second processed within
the dedup TTL — admitted by the sampler and not rate limited — is dropped
as a duplicate. -/
theorem fingerprint_context_free (p1 p2 : ErrorPayload)
    (h1 : p1.type = p2.type) (h2 : p1.name = p2.name) (h3 : p1.message = p2.message)
    (h4 : p1.stack = p2.stack) (h5 : p1.source = p2.source) :
    fingerprint p1 = fingerprint p2 ∧
    (∀ P1 P2 : UrlParser,
      fingerprint (sanitizePayload P1 p1) = fingerprint (sanitizePayload P2 p2)) ∧
    ∀ (P1 P2 : UrlParser) (cfg1 : Option WatcherConfig) (rand1 : ℚ) (n1 n2 : Nat)
      (cfg2 : Option WatcherConfig) (rand2 : ℚ) (n1' n2' : Nat) (st st1 : ProcState)
      (sp : SentPayload),
      processError P1 cfg1 rand1 n1 n2 p1 st = (st1, some sp) →
      n2' < n2 + 3000 →
      shouldSample (getConfigM cfg2) rand2 = true →
      (rateLimited n1' st1.windowStart st1.countInWindow).1 = false →
      (processError P2 cfg2 rand2 n1' n2' p2 st1).2 = none := by
  have hfp : fingerprint p1 = fingerprint p2 := by
    unfold fingerprint
    rw [h1, h2, h3, h4, h5]
  have hfps : ∀ P1 P2 : UrlParser,
      fingerprint (sanitizePayload P1 p1) = fingerprint (sanitizePayload P2 p2) := by
    intro P1 P2
    unfold fingerprint
    simp only [sanitizePayload]
    rw [h1, h2, h3, h4, h5]
  refine ⟨hfp, hfps, ?_⟩
  intro P1 P2 cfg1 rand1 n1 n2 cfg2 rand2 n1' n2' st st1 sp hrun httl hs2 hrl2
  have hinv := processError_some_inv P1 cfg1 rand1 n1 n2 p1 st st1 sp hrun
  have hget : mapGet st1.recent (fingerprint (sanitizePayload P1 p1)) = some (n2 + 3000) := by
    rw [hinv.2.2.2.1]
    exact deduped_false_mapGet _ _ _ _ hinv.2.2.1
  have hdup2 : (deduped (fingerprint (sanitizePayload P2 p2)) 3000 n2' st1.recent).1
      = true := by
    rw [(hfps P1 P2).symm]
    exact ((dedup_ttl _ 3000 n2' st1.recent).1 (n2 + 3000) hget (by omega)).1
  exact processError_dup_none P2 cfg2 rand2 n1' n2' p2 st1 hs2 hrl2 hdup2

set_option maxRecDepth 100000 in
/-- C10 witness: `payloadW2`, processed right after `payloadW1` was
dispatched, is dropped even though its timestamp and browsing context
differ. -/
theorem fingerprint_context_free_witness :
    (processError urlParserNone none 0 1 1 payloadW2
      ⟨0, 1, [("40e8ccf9".toList, 3000)]⟩).2 = none :=
  (fingerprint_context_free payloadW1 payloadW2 rfl rfl rfl rfl rfl).2.2 urlParserNone
    urlParserNone none 0 0 0 none 0 1 1 procSt0 ⟨0, 1, [("40e8ccf9".toList, 3000)]⟩
    ⟨payloadW1, "40e8ccf9".toList⟩ (by decide) (by decide) (by decide) (by decide)
